import Mathlib

/-!
Shallow embedding of the gocerr library (package gocerr): a structured
error value type `Error` carrying an integer code, a message, and an
ordered collection of field-level validation errors (`ErrorField`),
together with the accessor functions that operate on Go's generic
`error` interface (`Parse`, `GetErrorCode`, `IsErrorCodeEqual`,
`HasErrorFields`, `GetErrorFields`, `HasErrorField`,
`GetErrorFieldMessage`, `ErrorFieldCount`) and the methods `String` and
`IsEmpty`.

Modelling choices:
* A Go slice held in an `Error` is modelled in the pure model as
  `Option (List ErrorField)`: `none` is the nil slice, `some l` is an
  allocated slice with contents `l`.  Go's `len` and `range` on a nil
  slice behave as on an empty one; `sliceLen` and `sliceElems` capture
  that.
* A value of Go's `error` interface type is modelled as
  `Option GoErr`: `none` is the nil interface value, `GoErr.custom e`
  is a `gocerr.Error` stored in the interface, and `GoErr.generic s`
  is any other concrete error type (carrying only its message, which
  is all the accessors could observe of it).  The type assertion
  `err.(Error)` succeeds exactly on `GoErr.custom`.
* Go `int` is modelled as `Int`; the library performs no arithmetic on
  codes, only equality comparison, so overflow is not observable.
* For the aliasing/defensive-copy claim, a second, store-passing model
  of the slice-manipulating functions is given further below
  (`Store`, `NewH`, `GetErrorFieldsH`), in which a slice is a
  reference into a heap of backing arrays and mutation is explicit.
-/

namespace Gocerr

/-- `ErrorField` represents a field-specific validation error: the field
name and a human-readable message (source: error_field part of the
package). -/
structure ErrorField where
  Field : String
  Message : String
  deriving DecidableEq, Repr

/-- `NewErrorField` creates a new `ErrorField` with the given field name
and message. -/
def NewErrorField (field : String) (message : String) : ErrorField :=
  { Field := field, Message := message }

/-- `Error` is the structured error value: numeric code, message, and a
possibly-nil slice of field errors.  `ErrorFields = none` models the
nil slice, `ErrorFields = some l` an allocated slice with contents
`l`. -/
structure Error where
  Code : Int
  Message : String
  ErrorFields : Option (List ErrorField)
  deriving DecidableEq, Repr

/-- Go's `len` on a possibly-nil slice: `len(nil) = 0`. -/
def sliceLen : Option (List ErrorField) → Nat
  | none => 0
  | some l => l.length

/-- Go's `range` view of a possibly-nil slice: ranging over nil yields
no elements. -/
def sliceElems : Option (List ErrorField) → List ErrorField
  | none => []
  | some l => l

/-- The zero value `Error{}` of the struct: code 0, empty message, nil
slice. -/
def emptyError : Error :=
  { Code := 0, Message := "", ErrorFields := none }

/-- `New` creates a new custom `Error`.  The source pre-allocates and
copies the variadic `errorFields` slice only when it is non-empty
(`var fields []ErrorField; if len(errorFields) > 0 { fields = make(...);
copy(fields, errorFields) }`), so zero supplied fields yield the nil
slice.  The argument list models the variadic arguments. -/
def New (code : Int) (message : String) (errorFields : List ErrorField) : Error :=
  if errorFields.length > 0 then
    { Code := code, Message := message, ErrorFields := some errorFields }
  else
    { Code := code, Message := message, ErrorFields := none }

/-- The `Error()` method of the built-in error interface: returns the
stored message. -/
def Error.errorString (e : Error) : String :=
  e.Message

/-- `GoErr` models the concrete value stored in a non-nil Go `error`
interface: either a `gocerr.Error`, or any other error type (of which
only the message is observable). -/
inductive GoErr where
  | custom (e : Error) : GoErr
  | generic (msg : String) : GoErr
  deriving DecidableEq, Repr

/-- `Parse` attempts to convert a Go `error` into an `Error` by type
assertion: nil yields `(Error{}, false)`, a non-`Error` concrete type
yields `(Error{}, false)`, and an `Error` is returned unchanged with
`true`. -/
def Parse : Option GoErr → Error × Bool
  | none => (emptyError, false)
  | some (GoErr.custom e) => (e, true)
  | some (GoErr.generic _) => (emptyError, false)

/-- `GetErrorCode` extracts the code via `Parse`; 0 when the error is
nil or not a custom `Error`. -/
def GetErrorCode (err : Option GoErr) : Int :=
  match Parse err with
  | (customError, true) => customError.Code
  | (_, false) => 0

/-- `IsErrorCodeEqual` compares `GetErrorCode err` with the given
code. -/
def IsErrorCodeEqual (err : Option GoErr) (code : Int) : Bool :=
  GetErrorCode err == code

/-- `HasErrorFields`: true when the error parses as a custom `Error`
with a non-empty field slice. -/
def HasErrorFields (err : Option GoErr) : Bool :=
  match Parse err with
  | (customError, true) => decide (sliceLen customError.ErrorFields > 0)
  | (_, false) => false

/-- `GetErrorFields`: on a parsed custom `Error` with no fields returns
nil, otherwise an independent copy of the field slice; nil when the
error does not parse.  The result `none` models the returned nil
slice. -/
def GetErrorFields (err : Option GoErr) : Option (List ErrorField) :=
  match Parse err with
  | (customError, true) =>
    if sliceLen customError.ErrorFields = 0 then none
    else some (sliceElems customError.ErrorFields)
  | (_, false) => none

/-- `HasErrorField`: linear scan for a field whose name equals
`fieldName` (exact string equality), returning on the first match. -/
def HasErrorField (err : Option GoErr) (fieldName : String) : Bool :=
  match Parse err with
  | (customError, true) =>
    (sliceElems customError.ErrorFields).any (fun field => field.Field == fieldName)
  | (_, false) => false

/-- `GetErrorFieldMessage`: linear scan returning the message of the
first field whose name equals `fieldName`; empty string when absent or
when the error does not parse.  `List.find?` returns the first match,
mirroring the source's early-return loop. -/
def GetErrorFieldMessage (err : Option GoErr) (fieldName : String) : String :=
  match Parse err with
  | (customError, true) =>
    match (sliceElems customError.ErrorFields).find? (fun field => field.Field == fieldName) with
    | some field => field.Message
    | none => ""
  | (_, false) => ""

/-- `ErrorFieldCount`: the length of the field slice of a parsed custom
`Error`, 0 otherwise. -/
def ErrorFieldCount (err : Option GoErr) : Nat :=
  match Parse err with
  | (customError, true) => sliceLen customError.ErrorFields
  | (_, false) => 0

/-- Lowercase hexadecimal digit, as used by Go's strconv escape
sequences. -/
def lowerHexDigit (n : Nat) : Char :=
  if n < 10 then Char.ofNat (48 + n) else Char.ofNat (87 + n)

/-- Two-digit lowercase hexadecimal rendering of a byte value. -/
def hex2 (n : Nat) : String :=
  String.mk [lowerHexDigit (n / 16 % 16), lowerHexDigit (n % 16)]

/-- One character of Go's `%q` (strconv.Quote) rendering: quote and
backslash are backslash-escaped, printable ASCII is literal, the named
control escapes are used where they exist, other ASCII control
characters use `\xhh`.  Non-ASCII characters are emitted literally;
this approximates Go's unicode.IsPrint table, which the claims do not
exercise. -/
def goQuoteChar (c : Char) : String :=
  if c = '"' then "\\\""
  else if c = '\\' then "\\\\"
  else if 0x20 ≤ c.toNat ∧ c.toNat < 0x7F then String.singleton c
  else if c = Char.ofNat 0x07 then "\\a"
  else if c = Char.ofNat 0x08 then "\\b"
  else if c = Char.ofNat 0x0C then "\\f"
  else if c = '\n' then "\\n"
  else if c = Char.ofNat 0x0D then "\\r"
  else if c = '\t' then "\\t"
  else if c = Char.ofNat 0x0B then "\\v"
  else if c.toNat < 0x80 then "\\x" ++ hex2 c.toNat
  else String.singleton c

/-- Go's `%q` rendering of a string: double quotes around the escaped
characters. -/
def goQuote (s : String) : String :=
  "\"" ++ String.join (s.data.map goQuoteChar) ++ "\""

/-- The rendering of one field inside `String()`:
`fmt.Sprintf("\x7bField: %q, Message: %q\x7d", field.Field,
field.Message)`. -/
def renderField (f : ErrorField) : String :=
  "\x7bField: " ++ goQuote f.Field ++ ", Message: " ++ goQuote f.Message ++ "\x7d"

/-- The `String()` method: with no fields,
`fmt.Sprintf("Error\x7bCode: %d, Message: %q\x7d", ...)`; otherwise a
strings.Builder writing the same prefix followed by
`, ErrorFields: [`, the rendered fields separated by `, ` (the loop
writes the separator before every field whose index is positive), and
`]\x7d`.  The fold carries the builder string and the loop index. -/
def Error.String (e : Error) : String :=
  if sliceLen e.ErrorFields = 0 then
    "Error\x7bCode: " ++ toString e.Code ++ ", Message: " ++ goQuote e.Message ++ "\x7d"
  else
    let header := "Error\x7bCode: " ++ toString e.Code ++ ", Message: " ++
      goQuote e.Message ++ ", ErrorFields: ["
    let body := ((sliceElems e.ErrorFields).foldl
      (fun acc field =>
        ((if acc.2 > 0 then acc.1 ++ ", " else acc.1) ++ renderField field, acc.2 + 1))
      (header, (0 : Nat))).1
    body ++ "]\x7d"

/-- The `IsEmpty()` method: `e.Code == 0 && e.Message == "" &&
len(e.ErrorFields) == 0`. -/
def Error.IsEmpty (e : Error) : Bool :=
  e.Code == 0 && e.Message == "" && sliceLen e.ErrorFields == 0

/-- Concatenation of a list of strings, used to state the closed form
of the `String()` builder loop. -/
def sepConcat : List String → String
  | [] => ""
  | s :: rest => s ++ sepConcat rest

/-!
Store-passing model of the slice-manipulating operations, for the
defensive-copy / non-aliasing claim.  A Go slice value is a reference
to a backing array; the heap maps array identifiers to their contents,
and ids at or above `next` are unallocated.  `make` + `copy` is
`Store.alloc` (a fresh id holding the copied contents); mutating a
slice in place is `Store.write` on its id.  An `Error` in this model
(`HError`) holds a possibly-nil slice reference instead of the
contents. -/

/-- A reference to the backing array of a (non-nil) slice. -/
structure SliceRef where
  id : Nat
  deriving DecidableEq, Repr

/-- The slice heap: backing-array contents per id, plus the next fresh
id. -/
structure Store where
  heap : Nat → List ErrorField
  next : Nat

/-- Reading the contents of a possibly-nil slice: the nil slice reads
as empty (Go's `len`/`range` semantics). -/
def Store.read (σ : Store) : Option SliceRef → List ErrorField
  | none => []
  | some r => σ.heap r.id

/-- In-place mutation of the backing array with id `i`. -/
def Store.write (σ : Store) (i : Nat) (l : List ErrorField) : Store :=
  { heap := fun j => if j = i then l else σ.heap j, next := σ.next }

/-- `make([]ErrorField, n)` followed by `copy`: allocate a fresh
backing array holding `l`. -/
def Store.alloc (σ : Store) (l : List ErrorField) : Store × SliceRef :=
  ({ heap := fun j => if j = σ.next then l else σ.heap j, next := σ.next + 1 },
   { id := σ.next })

/-- `Error` in the store-passing model: the field slice is a
possibly-nil reference into the store. -/
structure HError where
  Code : Int
  Message : String
  ErrorFields : Option SliceRef
  deriving DecidableEq, Repr

/-- The Go `error` interface value in the store-passing model. -/
inductive GoHErr where
  | custom (e : HError) : GoHErr
  | generic (msg : String) : GoHErr

/-- `Parse` in the store-passing model: the type assertion copies the
struct (sharing the slice reference) and touches no slice contents. -/
def ParseH : Option GoHErr → HError × Bool
  | none => ({ Code := 0, Message := "", ErrorFields := none }, false)
  | some (GoHErr.custom e) => (e, true)
  | some (GoHErr.generic _) => ({ Code := 0, Message := "", ErrorFields := none }, false)

/-- `New` in the store-passing model: when the variadic slice is
non-empty, `make` + `copy` into a fresh backing array; otherwise the
field slice stays nil.  The variadic parameter `errorFields` is the
caller's slice when the call spreads one (`New(c, m, f...)`). -/
def NewH (σ : Store) (code : Int) (message : String) (errorFields : Option SliceRef) :
    Store × HError :=
  if (σ.read errorFields).length > 0 then
    let a := σ.alloc (σ.read errorFields)
    (a.1, { Code := code, Message := message, ErrorFields := some a.2 })
  else
    (σ, { Code := code, Message := message, ErrorFields := none })

/-- `GetErrorFields` in the store-passing model: parse, return nil when
there are no fields, otherwise `make` + `copy` into a fresh backing
array and return a reference to it. -/
def GetErrorFieldsH (σ : Store) (err : Option GoHErr) : Store × Option SliceRef :=
  match ParseH err with
  | (customError, true) =>
    if (σ.read customError.ErrorFields).length = 0 then (σ, none)
    else
      let a := σ.alloc (σ.read customError.ErrorFields)
      (a.1, some a.2)
  | (_, false) => (σ, none)

/-- A concrete store with one allocated backing array (id 0) holding
one field, used to witness the non-aliasing theorem. -/
def demoStore : Store :=
  { heap := fun jj => if jj = 0 then [NewErrorField "a" "x"] else [], next := 1 }

/-- A concrete structured error whose field slice is backing array 0 of
`demoStore`. -/
def demoHErr : HError :=
  { Code := 7, Message := "m", ErrorFields := some { id := 0 } }

/-!
Helper lemmas shared by the claim theorems.
-/

/-- `String.append` is associative (via the underlying character
lists). -/
theorem str_append_assoc (a b c : String) : a ++ b ++ c = a ++ (b ++ c) := by
  apply String.ext
  simp [String.data_append, List.append_assoc]

/-- `List.find?` over a split list returns the marked element when
nothing before it satisfies the predicate and it does. -/
theorem find?_first (p : ErrorField → Bool) (l₁ l₂ : List ErrorField) (f : ErrorField)
    (h₁ : ∀ g ∈ l₁, p g = false) (hf : p f = true) :
    List.find? p (l₁ ++ f :: l₂) = some f := by
  induction l₁ with
  | nil => simp [List.find?, hf]
  | cons g l ih =>
    have hg : p g = false := h₁ g (List.mem_cons_self g l)
    simp only [List.cons_append, List.find?, hg]
    exact ih fun x hx => h₁ x (List.mem_cons_of_mem g hx)

/-- The length of a possibly-nil slice is the length of its element
view. -/
theorem sliceLen_eq_length_sliceElems (x : Option (List ErrorField)) :
    sliceLen x = (sliceElems x).length := by
  cases x <;> rfl

/-- Closed form of the `String()` builder loop once the index is
positive: every remaining field is written with a `", "` separator
before it. -/
theorem foldl_builder (l : List ErrorField) (acc : String) (k : Nat) (hk : 0 < k) :
    (l.foldl
      (fun a f => ((if a.2 > 0 then a.1 ++ ", " else a.1) ++ renderField f, a.2 + 1))
      (acc, k)).1
      = acc ++ sepConcat (l.map fun f => ", " ++ renderField f) := by
  induction l generalizing acc k with
  | nil => simp [sepConcat]
  | cons f rest ih =>
    simp only [List.foldl, List.map, sepConcat]
    rw [if_pos hk, ih (acc ++ ", " ++ renderField f) (k + 1) (Nat.succ_pos k)]
    simp [str_append_assoc]

/-- Unfolding of `NewH` when the supplied slice is non-empty: a fresh
backing array is allocated holding a copy of the contents. -/
theorem NewH_pos (σ : Store) (c : Int) (m : String) (r : Option SliceRef)
    (h : (σ.read r).length > 0) :
    NewH σ c m r = ((σ.alloc (σ.read r)).1,
      { Code := c, Message := m, ErrorFields := some (σ.alloc (σ.read r)).2 }) := by
  unfold NewH
  rw [if_pos h]

/-- Unfolding of `NewH` when the supplied slice is empty or nil: the
store is untouched and the field slice is nil. -/
theorem NewH_neg (σ : Store) (c : Int) (m : String) (r : Option SliceRef)
    (h : ¬ (σ.read r).length > 0) :
    NewH σ c m r = (σ, { Code := c, Message := m, ErrorFields := none }) := by
  unfold NewH
  rw [if_neg h]

/-- Unfolding of `GetErrorFieldsH` on a boxed structured error. -/
theorem getFieldsH_eq (σ : Store) (e : HError) :
    GetErrorFieldsH σ (some (GoHErr.custom e)) =
      (if (σ.read e.ErrorFields).length = 0 then (σ, none)
       else ((σ.alloc (σ.read e.ErrorFields)).1, some (σ.alloc (σ.read e.ErrorFields)).2)) := by
  unfold GetErrorFieldsH ParseH
  rfl

end Gocerr

/-!
Claim theorems.
-/

namespace Gocerr

/-- C1: for every integer code `c`, string message `m`, and list of
field errors `fs`, parsing the error built by `New c m fs` (boxed in
the Go error interface) succeeds, and the parsed value has code `c`,
message `m`, and exactly the field sequence `fs` in order. -/
theorem parse_new_roundtrip (c : Int) (m : String) (fs : List ErrorField) :
    (Parse (some (GoErr.custom (New c m fs)))).2 = true ∧
    (Parse (some (GoErr.custom (New c m fs)))).1.Code = c ∧
    (Parse (some (GoErr.custom (New c m fs)))).1.Message = m ∧
    sliceElems (Parse (some (GoErr.custom (New c m fs)))).1.ErrorFields = fs := by
  cases fs with
  | nil => exact ⟨rfl, rfl, rfl, rfl⟩
  | cons f l => refine ⟨rfl, ?_, ?_, ?_⟩ <;> simp [Parse, New, sliceElems]

/-- C3 counterexample: at the concrete input (nil error, code 0),
`IsErrorCodeEqual` returns true even though the nil error is not a
structured `Error` — refuting the claim that it returns false whenever
the error does not match, for every code. -/
theorem isErrorCodeEqual_nil_zero_cex :
    IsErrorCodeEqual none 0 = true ∧
    ∀ e : Error, (none : Option GoErr) ≠ some (GoErr.custom e) := by
  exact ⟨rfl, fun e h => Option.noConfusion h⟩

/-- C3 amended: `IsErrorCodeEqual e c` returns true iff either `e` is a
structured `Error` whose stored code is `c`, or `e` does not match (it
is nil or of another concrete type) and `c = 0` — because a non-match
compares `c` against the default code 0. -/
theorem isErrorCodeEqual_amended (err : Option GoErr) (c : Int) :
    IsErrorCodeEqual err c = true ↔
      ((∃ e : Error, err = some (GoErr.custom e) ∧ e.Code = c) ∨
       ((∀ e : Error, err ≠ some (GoErr.custom e)) ∧ c = 0)) := by
  cases err with
  | none =>
    simp only [IsErrorCodeEqual, GetErrorCode, Parse, beq_iff_eq]
    constructor
    · intro h
      exact Or.inr ⟨fun e he => Option.noConfusion he, h.symm⟩
    · rintro (⟨e, he, _⟩ | ⟨_, hc⟩)
      · exact Option.noConfusion he
      · exact hc.symm
  | some g =>
    cases g with
    | custom e =>
      simp only [IsErrorCodeEqual, GetErrorCode, Parse, beq_iff_eq]
      constructor
      · intro h
        exact Or.inl ⟨e, rfl, h⟩
      · rintro (⟨e', he, hc⟩ | ⟨hne, _⟩)
        · injection he with h
          injection h with h
          subst h
          exact hc
        · exact absurd rfl (hne e)
    | generic s =>
      simp only [IsErrorCodeEqual, GetErrorCode, Parse, beq_iff_eq]
      constructor
      · intro h
        refine Or.inr ⟨fun e he => ?_, h.symm⟩
        exact GoErr.noConfusion (Option.some.inj he)
      · rintro (⟨e, he, _⟩ | ⟨_, hc⟩)
        · exact GoErr.noConfusion (Option.some.inj he)
        · exact hc.symm

/-- C4: on the nil error and on every error of a non-structured
concrete type, `Parse` returns the zero `Error` with `false`,
`GetErrorCode` returns 0, `HasErrorFields` returns false,
`GetErrorFields` returns the nil slice, `ErrorFieldCount` returns 0,
and `GetErrorFieldMessage` returns the empty string for every field
name; every accessor is a total function, so none can fail. -/
theorem accessors_default_on_non_match (s n : String) :
    Parse none = (emptyError, false) ∧
    Parse (some (GoErr.generic s)) = (emptyError, false) ∧
    GetErrorCode none = 0 ∧
    GetErrorCode (some (GoErr.generic s)) = 0 ∧
    HasErrorFields none = false ∧
    HasErrorFields (some (GoErr.generic s)) = false ∧
    GetErrorFields none = none ∧
    GetErrorFields (some (GoErr.generic s)) = none ∧
    ErrorFieldCount none = 0 ∧
    ErrorFieldCount (some (GoErr.generic s)) = 0 ∧
    GetErrorFieldMessage none n = "" ∧
    GetErrorFieldMessage (some (GoErr.generic s)) n = "" :=
  ⟨rfl, rfl, rfl, rfl, rfl, rfl, rfl, rfl, rfl, rfl, rfl, rfl⟩

/-- C5: constructing with zero supplied field errors yields the nil
field slice (not an allocated empty one), its length is 0, and the
has-fields query agrees that there are no fields. -/
theorem new_no_fields_is_nil (c : Int) (m : String) :
    (New c m []).ErrorFields = none ∧
    sliceLen (New c m []).ErrorFields = 0 ∧
    HasErrorFields (some (GoErr.custom (New c m []))) = false :=
  ⟨rfl, rfl, rfl⟩

/-- C7: `IsEmpty` holds exactly when the code is 0, the message is
empty, and the field slice has length 0 — where both the nil slice and
an allocated zero-length slice count as empty; concrete instances
confirm the spec's examples. -/
theorem isEmpty_iff_zero (e : Error) :
    (e.IsEmpty = true ↔ e.Code = 0 ∧ e.Message = "" ∧ sliceLen e.ErrorFields = 0) ∧
    ({ Code := 0, Message := "", ErrorFields := some [] } : Error).IsEmpty = true ∧
    emptyError.IsEmpty = true ∧
    (New 0 "" []).IsEmpty = true ∧
    (New 0 "x" []).IsEmpty = false ∧
    (New 404 "not found" []).IsEmpty = false := by
  refine ⟨?_, rfl, rfl, rfl, by decide, by decide⟩
  simp [Error.IsEmpty, and_assoc]

/-- C9: on the nil error and on every non-structured error,
`IsErrorCodeEqual` returns true exactly when the requested code is 0,
since it compares against the default code 0 from `GetErrorCode`; in
particular it returns true at (nil, 0). -/
theorem isErrorCodeEqual_non_match (c : Int) (s : String) :
    (IsErrorCodeEqual none c = true ↔ c = 0) ∧
    (IsErrorCodeEqual (some (GoErr.generic s)) c = true ↔ c = 0) ∧
    IsErrorCodeEqual none 0 = true := by
  refine ⟨?_, ?_, rfl⟩ <;>
    · simp only [IsErrorCodeEqual, GetErrorCode, Parse, beq_iff_eq]
      omega

/-- C6: field ordering is preserved from construction through
extraction, and whenever the field list splits as `l₁ ++ f :: l₂` with
`f` the first field named `n` (exact string equality, nothing in `l₁`
named `n`), `HasErrorField` answers true and `GetErrorFieldMessage`
returns `f`'s message — the first match in insertion order; in
particular with two fields both named "a" carrying "first" and
"second", the lookup returns "first". -/
theorem first_match_and_order (c : Int) (m n : String)
    (fs l₁ l₂ : List ErrorField) (f : ErrorField)
    (hsplit : fs = l₁ ++ f :: l₂) (hf : f.Field = n)
    (hfirst : ∀ g ∈ l₁, g.Field ≠ n) :
    sliceElems (New c m fs).ErrorFields = fs ∧
    GetErrorFields (some (GoErr.custom (New c m fs))) = some fs ∧
    HasErrorField (some (GoErr.custom (New c m fs))) n = true ∧
    GetErrorFieldMessage (some (GoErr.custom (New c m fs))) n = f.Message ∧
    GetErrorFieldMessage (some (GoErr.custom
      (New 1 "m" [NewErrorField "a" "first", NewErrorField "a" "second"]))) "a" = "first" := by
  subst hsplit
  have hlen : (l₁ ++ f :: l₂).length > 0 := by simp
  have helems : sliceElems (New c m (l₁ ++ f :: l₂)).ErrorFields = l₁ ++ f :: l₂ := by
    simp [New, hlen, sliceElems]
  have hfind : List.find? (fun g => g.Field == n) (l₁ ++ f :: l₂) = some f := by
    refine find?_first _ _ _ _ (fun g hg => ?_) (by simp [hf])
    simp [hfirst g hg]
  have hslen : ¬ sliceLen (New c m (l₁ ++ f :: l₂)).ErrorFields = 0 := by
    rw [sliceLen_eq_length_sliceElems, helems]
    simp
  refine ⟨helems, ?_, ?_, ?_, rfl⟩
  · simp only [GetErrorFields, Parse, if_neg hslen, helems]
  · simp only [HasErrorField, Parse, helems]
    exact List.any_eq_true.mpr ⟨f, by simp, by simp [hf]⟩
  · simp only [GetErrorFieldMessage, Parse, helems, hfind]

/-- C6 witness: the theorem instantiated at the duplicate-name example,
with the split hypotheses discharged concretely. -/
theorem first_match_and_order_witness :
    GetErrorFieldMessage (some (GoErr.custom
      (New 1 "m" [NewErrorField "a" "first", NewErrorField "a" "second"]))) "a" = "first" ∧
    HasErrorField (some (GoErr.custom
      (New 1 "m" [NewErrorField "a" "first", NewErrorField "a" "second"]))) "a" = true := by
  have h := first_match_and_order 1 "m" "a"
    [NewErrorField "a" "first", NewErrorField "a" "second"]
    [] [NewErrorField "a" "second"] (NewErrorField "a" "first")
    rfl rfl (by simp)
  exact ⟨h.2.2.2.2, h.2.2.1⟩

/-- C10: when the first field named `n₁` carries the empty message,
`GetErrorFieldMessage` returns "" exactly as it does for a name `n₂`
that no field carries — the two situations are distinguished only by
`HasErrorField`, which answers true for `n₁` and false for `n₂`. -/
theorem field_message_absent_vs_empty (c : Int) (m n₁ n₂ : String)
    (fs : List ErrorField) (f : ErrorField)
    (h₁ : fs.find? (fun g => g.Field == n₁) = some f)
    (h₂ : f.Message = "")
    (h₃ : ∀ g ∈ fs, g.Field ≠ n₂) :
    GetErrorFieldMessage (some (GoErr.custom (New c m fs))) n₁ = "" ∧
    HasErrorField (some (GoErr.custom (New c m fs))) n₁ = true ∧
    GetErrorFieldMessage (some (GoErr.custom (New c m fs))) n₂ = "" ∧
    HasErrorField (some (GoErr.custom (New c m fs))) n₂ = false := by
  cases fs with
  | nil => simp [List.find?] at h₁
  | cons g l =>
    have helems : sliceElems (New c m (g :: l)).ErrorFields = g :: l := by
      simp [New, sliceElems]
    have hnone : List.find? (fun x => x.Field == n₂) (g :: l) = none :=
      List.find?_eq_none.mpr fun x hx => by simp [h₃ x hx]
    refine ⟨?_, ?_, ?_, ?_⟩
    · simp only [GetErrorFieldMessage, Parse, helems, h₁, h₂]
    · simp only [HasErrorField, Parse, helems]
      exact List.any_eq_true.mpr
        ⟨f, List.mem_of_find?_eq_some h₁, by simpa using List.find?_some h₁⟩
    · simp only [GetErrorFieldMessage, Parse, helems, hnone]
    · simp only [HasErrorField, Parse, helems]
      exact List.any_eq_false.mpr fun x hx => by simp [h₃ x hx]

/-- C10 witness: one field named "a" with the empty message; lookups at
"a" and at the absent name "b" both return "", separated only by
`HasErrorField`. -/
theorem field_message_absent_vs_empty_witness :
    GetErrorFieldMessage (some (GoErr.custom (New 1 "m" [NewErrorField "a" ""]))) "a" = "" ∧
    HasErrorField (some (GoErr.custom (New 1 "m" [NewErrorField "a" ""]))) "a" = true ∧
    GetErrorFieldMessage (some (GoErr.custom (New 1 "m" [NewErrorField "a" ""]))) "b" = "" ∧
    HasErrorField (some (GoErr.custom (New 1 "m" [NewErrorField "a" ""]))) "b" = false :=
  field_message_absent_vs_empty 1 "m" "a" "b" [NewErrorField "a" ""] (NewErrorField "a" "")
    (by simp [List.find?, NewErrorField]) rfl (by simp [NewErrorField])

/-- C8 counterexample: `String()` renders the field list with the label
`, ErrorFields: [`, not `, Fields: [` as the claim states; at the
concrete input `New 1 "m" [NewErrorField "a" "b"]` the rendered string
differs from the claimed form (the claimed form is fully determined by
the claim: wrapper `Error`, the given quoted renders, and the
`, Fields: [...]` suffix). -/
theorem string_fields_label_cex :
    (New 1 "m" [NewErrorField "a" "b"]).String =
      "Error\x7bCode: 1, Message: \"m\", ErrorFields: [\x7bField: \"a\", Message: \"b\"\x7d]\x7d" ∧
    (New 1 "m" [NewErrorField "a" "b"]).String ≠
      "Error\x7bCode: 1, Message: \"m\", Fields: [\x7bField: \"a\", Message: \"b\"\x7d]\x7d" :=
  ⟨by decide, by decide⟩

/-- C8 amended: `String()` deterministically renders
`Error\x7bCode: <code>, Message: <quoted message>\x7d` when there are no
fields, and with a `, ErrorFields: [...]` suffix listing each field as
`\x7bField: <quoted name>, Message: <quoted message>\x7d` (separated by
`", "`) when fields exist; quote and backslash characters embedded in
messages and field strings are escaped; and the concrete example
renders as the wrapper name `Error` followed by
`\x7bCode: 404, Message: "not found"\x7d`. -/
theorem string_render_amended (e : Error) :
    (sliceLen e.ErrorFields = 0 →
      e.String = "Error\x7bCode: " ++ toString e.Code ++ ", Message: " ++
        goQuote e.Message ++ "\x7d") ∧
    (∀ f₀ rest, sliceElems e.ErrorFields = f₀ :: rest →
      e.String = "Error\x7bCode: " ++ toString e.Code ++ ", Message: " ++
        goQuote e.Message ++ ", ErrorFields: [" ++ renderField f₀ ++
        sepConcat (rest.map fun f => ", " ++ renderField f) ++ "]\x7d") ∧
    goQuote "not found" = "\"not found\"" ∧
    goQuote "a\"b" = "\"a\\\"b\"" ∧
    goQuote "a\\b" = "\"a\\\\b\"" ∧
    renderField (NewErrorField "a" "b") = "\x7bField: \"a\", Message: \"b\"\x7d" ∧
    (New 404 "not found" []).String = "Error\x7bCode: 404, Message: \"not found\"\x7d" := by
  refine ⟨?_, ?_, by decide, by decide, by decide, by decide, by decide⟩
  · intro h
    unfold Error.String
    rw [if_pos h]
  · intro f₀ rest hcons
    have hne : ¬ sliceLen e.ErrorFields = 0 := by
      rw [sliceLen_eq_length_sliceElems, hcons]
      simp
    unfold Error.String
    rw [if_neg hne]
    simp only [hcons, List.foldl]
    rw [if_neg (show ¬ (0 : Nat) > 0 by decide)]
    rw [foldl_builder rest _ (0 + 1) (Nat.succ_pos 0)]

/-- C8 witness: the amended rendering theorem applied at a no-fields
error and at a two-field error, with the shape hypotheses discharged
concretely. -/
theorem string_render_amended_witness :
    (New 404 "not found" []).String = "Error\x7bCode: 404, Message: \"not found\"\x7d" ∧
    (New 2 "x" [NewErrorField "a" "b", NewErrorField "c" "d"]).String =
      "Error\x7bCode: 2, Message: \"x\", ErrorFields: [\x7bField: \"a\", Message: \"b\"\x7d, \x7bField: \"c\", Message: \"d\"\x7d]\x7d" := by
  constructor
  · rw [(string_render_amended (New 404 "not found" [])).1 rfl]
    decide
  · rw [(string_render_amended (New 2 "x" [NewErrorField "a" "b", NewErrorField "c" "d"])).2.1
      (NewErrorField "a" "b") [NewErrorField "c" "d"] rfl]
    decide

/-- C2: defensive copying.  In the store-passing model, (a) after
constructing an error by spreading the caller's slice with backing
array `i` into `New`, overwriting that backing array with any contents
`l'` does not change the fields read from the constructed error, which
remain the contents copied at construction; and (b) when
`GetErrorFields` returns a (non-nil) slice with backing array `j`,
overwriting that array with any contents `l''` does not change the
contents returned by a subsequent `GetErrorFields` on the same error —
every extraction returns an independent copy, never an alias into the
error's internal storage. -/
theorem defensive_copy_non_aliasing (σ : Store) (c : Int) (m : String) (i : Nat)
    (l' l'' : List ErrorField) (e : HError) (j : Nat)
    (hi : i < σ.next)
    (he : ∀ r, e.ErrorFields = some r → r.id < σ.next) :
    (((NewH σ c m (some ⟨i⟩)).1.write i l').read (NewH σ c m (some ⟨i⟩)).2.ErrorFields
       = (NewH σ c m (some ⟨i⟩)).1.read (NewH σ c m (some ⟨i⟩)).2.ErrorFields) ∧
    ((NewH σ c m (some ⟨i⟩)).1.read (NewH σ c m (some ⟨i⟩)).2.ErrorFields = σ.heap i) ∧
    ((GetErrorFieldsH σ (some (GoHErr.custom e))).2 = some ⟨j⟩ →
      (GetErrorFieldsH ((GetErrorFieldsH σ (some (GoHErr.custom e))).1.write j l'')
          (some (GoHErr.custom e))).1.read
        (GetErrorFieldsH ((GetErrorFieldsH σ (some (GoHErr.custom e))).1.write j l'')
          (some (GoHErr.custom e))).2
      = (GetErrorFieldsH σ (some (GoHErr.custom e))).1.read
          (GetErrorFieldsH σ (some (GoHErr.custom e))).2) := by
  have hin : i ≠ σ.next := Nat.ne_of_lt hi
  refine ⟨?_, ?_, ?_⟩
  · by_cases h : (σ.read (some ⟨i⟩)).length > 0
    · rw [NewH_pos σ c m (some ⟨i⟩) h]
      simp [Store.read, Store.alloc, Store.write, Ne.symm hin]
    · rw [NewH_neg σ c m (some ⟨i⟩) h]
      simp [Store.read]
  · by_cases h : (σ.read (some ⟨i⟩)).length > 0
    · rw [NewH_pos σ c m (some ⟨i⟩) h]
      simp [Store.read, Store.alloc]
    · rw [NewH_neg σ c m (some ⟨i⟩) h]
      have hnil : σ.heap i = [] := by
        simp only [Store.read] at h
        exact List.eq_nil_of_length_eq_zero (Nat.eq_zero_of_not_pos h)
      simp [Store.read, hnil]
  · cases hef : e.ErrorFields with
    | none =>
      intro hj
      rw [getFieldsH_eq, hef] at hj
      simp [Store.read] at hj
    | some r =>
      by_cases hL : (σ.read e.ErrorFields).length = 0
      · intro hj
        rw [getFieldsH_eq, if_pos hL] at hj
        simp at hj
      · intro hj
        have hr : r.id < σ.next := he r hef
        have h1 : r.id ≠ σ.next := Nat.ne_of_lt hr
        rw [getFieldsH_eq, if_neg hL] at hj
        have hj' : j = σ.next := by
          simp only [Store.alloc, Option.some.injEq] at hj
          cases hj
          rfl
        subst hj'
        have hread2 : (((σ.alloc (σ.read e.ErrorFields)).1.write σ.next l'').read
            e.ErrorFields) = σ.read e.ErrorFields := by
          simp [hef, Store.read, Store.write, Store.alloc, h1]
        simp only [getFieldsH_eq]
        simp only [if_neg hL]
        rw [hread2]
        simp only [if_neg hL]
        simp [Store.read, Store.write, Store.alloc, hef, h1]

/-- C2 witness: the non-aliasing theorem applied at the concrete store
`demoStore` (one allocated array, id 0, one field), caller slice id 0,
and mutation of the extracted slice (id 1), with both validity
hypotheses discharged concretely. -/
theorem defensive_copy_non_aliasing_witness :
    ((((NewH demoStore 7 "m" (some ⟨0⟩)).1.write 0 []).read
        (NewH demoStore 7 "m" (some ⟨0⟩)).2.ErrorFields)
      = (NewH demoStore 7 "m" (some ⟨0⟩)).1.read
          (NewH demoStore 7 "m" (some ⟨0⟩)).2.ErrorFields) ∧
    ((NewH demoStore 7 "m" (some ⟨0⟩)).1.read
        (NewH demoStore 7 "m" (some ⟨0⟩)).2.ErrorFields = demoStore.heap 0) ∧
    ((GetErrorFieldsH ((GetErrorFieldsH demoStore (some (GoHErr.custom demoHErr))).1.write 1
        [NewErrorField "z" "w"]) (some (GoHErr.custom demoHErr))).1.read
      (GetErrorFieldsH ((GetErrorFieldsH demoStore (some (GoHErr.custom demoHErr))).1.write 1
        [NewErrorField "z" "w"]) (some (GoHErr.custom demoHErr))).2
     = (GetErrorFieldsH demoStore (some (GoHErr.custom demoHErr))).1.read
        (GetErrorFieldsH demoStore (some (GoHErr.custom demoHErr))).2) := by
  have h := defensive_copy_non_aliasing demoStore 7 "m" 0 [] [NewErrorField "z" "w"]
    demoHErr 1 (by decide)
    (fun r hr => by
      have h0 : demoHErr.ErrorFields = some ⟨0⟩ := rfl
      rw [h0] at hr
      have h1 : (⟨0⟩ : SliceRef) = r := Option.some.inj hr
      rw [← h1]
      decide)
  exact ⟨h.1, h.2.1, h.2.2 (by decide)⟩

end Gocerr
